import Mathlib

/-
Verification development for the VAE anomaly-detection module (vae.js) of the
stock_trading_assistant repository.

Numbers are modelled as rationals (exact arithmetic idealisation of JS doubles).
Nullable matrix cells are `Option ℚ` (JS null).  The transcendental functions
Math.exp and Math.sqrt are threaded through as abstract parameters
`exp sq : ℚ → ℚ`; no property of the claims below depends on their values
except where explicitly hypothesised (exp 0 = 1).  Module-level mutable state
(_ready, _model, _scalerParams, _threshold) becomes an explicit VAEState value
that calibrate returns updated.
-/

namespace VAE

/-- Tensor model: a TF.js tensor is its shape list plus the row-major flat data,
exactly what _computeBatchErrors reads via tensor.shape and tensor.data(). -/
structure Tensor where
  shape : List ℕ
  data : List ℚ
deriving Repr, DecidableEq

/-- Model output: executeAsync returns either a single tensor or an array of
tensors (JS Array.isArray distinction in _computeBatchErrors). -/
inductive ModelOut where
  | single (t : Tensor)
  | multi (ts : List Tensor)
deriving Repr, DecidableEq

/-- Scaler parameters loaded from scaler_params.json (_scalerParams). -/
structure Scaler where
  min : List ℚ
  scale : List ℚ
deriving Repr, DecidableEq

/-- Module state of vae.js: _ready, _model (presence only), _scalerParams,
_threshold. -/
structure VAEState where
  ready : Bool
  modelLoaded : Bool
  scaler : Scaler
  threshold : Option ℚ
deriving Repr, DecidableEq

/-- Return value of calibrate. -/
structure CalibResult where
  threshold : Option ℚ
  windowCount : ℕ
  isReliable : Bool
deriving Repr, DecidableEq

/-- Return value of score. -/
structure ScoreResult where
  reconError : ℚ
  confidence : ℚ
  isAnomaly : Bool
  threshold : ℚ
deriving Repr, DecidableEq

/-- Raw (unscaled, possibly-null) feature window as produced by buildWindows. -/
abbrev RawWindow := List (List (Option ℚ))

/-- Math.min of JS, written so that it evaluates by kernel reduction. -/
def jsMin (a b : ℚ) : ℚ := if a ≤ b then a else b

/-- Math.max of JS, written so that it evaluates by kernel reduction. -/
def jsMax (a b : ℚ) : ℚ := if a ≤ b then b else a

theorem jsMin_eq_min (a b : ℚ) : jsMin a b = min a b := by
  rw [jsMin, min_def]

theorem jsMax_eq_max (a b : ℚ) : jsMax a b = max a b := by
  rw [jsMax, max_def]

/-- Apply per-feature MinMax scaling (_scaleRow): (v - min[i]) / scale[i],
clipped to [0,1]; a zero scale yields 0.  A null cell coerces to 0 like JS
null arithmetic. -/
def scaleRow (scaler : Scaler) (row : List (Option ℚ)) : List ℚ :=
  (List.range row.length).map (fun i =>
    if scaler.scale.getD i 0 = 0 then 0
    else
      let v := (row.getD i none).getD 0
      jsMin 1 (jsMax 0 ((v - scaler.min.getD i 0) / scaler.scale.getD i 0)))

/-- Format A of _computeBatchErrors: [z_mean, z_log_var] pair reduced to a
per-sample normalised KL divergence.  latentDim = shape[1] || 8. -/
def klFormatErrors (exp : ℚ → ℚ) (t0 t1 : Tensor) (batchSize : ℕ) : List ℚ :=
  let latentDim := if t0.shape.getD 1 0 = 0 then 8 else t0.shape.getD 1 0
  (List.range batchSize).map (fun b =>
    let kl := ((List.range latentDim).map (fun d =>
      let idx := b * latentDim + d
      let mu := t0.data.getD idx 0
      let lv := jsMax (-10 : ℚ) (jsMin 50 (t1.data.getD idx 0))
      let term := -(1/2 : ℚ) * (1 + lv - mu * mu - exp lv)
      term)).sum
    jsMax 0 (kl / (latentDim : ℚ)))

/-- Shape test of Format B: output rank 3 with dims 1 and 2 equal to the
input dims (outShape.length === 3 && outShape[1] === inpShape[1] &&
outShape[2] === inpShape[2]). -/
def shapeMatchB (input t : Tensor) : Bool :=
  t.shape.length == 3 && t.shape.getD 1 0 == input.shape.getD 1 0 &&
    t.shape.getD 2 0 == input.shape.getD 2 0

/-- Format B of _computeBatchErrors: per-sample MSE between input and output
over step = inpShape[1] * inpShape[2] elements. -/
def mseFormatErrors (input t : Tensor) (batchSize : ℕ) : List ℚ :=
  let step := input.shape.getD 1 0 * input.shape.getD 2 0
  (List.range batchSize).map (fun b =>
    let mse := ((List.range step).map (fun j =>
      let d := input.data.getD (b * step + j) 0 - t.data.getD (b * step + j) 0
      d * d)).sum
    jsMax 0 (mse / (step : ℚ)))

/-- Format C of _computeBatchErrors: per-sample Euclidean norm of the latent
vector, latentDim = outShape[1] || 8. -/
def l2FormatErrors (sq : ℚ → ℚ) (t : Tensor) (batchSize : ℕ) : List ℚ :=
  let latentDim := if t.shape.getD 1 0 = 0 then 8 else t.shape.getD 1 0
  (List.range batchSize).map (fun b =>
    let l2 := ((List.range latentDim).map (fun d =>
      let v := t.data.getD (b * latentDim + d) 0
      v * v)).sum
    jsMax 0 (sq l2))

/-- Single-tensor branch of _computeBatchErrors: Format B when the shape
matches the input, Format C otherwise. -/
def singleTensorErrors (sq : ℚ → ℚ) (input t : Tensor) (batchSize : ℕ) : List ℚ :=
  if shapeMatchB input t then mseFormatErrors input t batchSize
  else l2FormatErrors sq t batchSize

/-- The tensor the single-tensor branch operates on: Format A (two or more
tensors) takes precedence, an empty array crashes in JS (none here). -/
def singleTensorOf : ModelOut → Option Tensor
  | .single t => some t
  | .multi [t] => some t
  | .multi _ => none

/-- _computeBatchErrors: auto-detect Format A / B / C and reduce the model
output to one scalar error per sample.  An empty output array is a JS
TypeError, modelled as none. -/
def computeBatchErrors (exp sq : ℚ → ℚ) (input : Tensor) (output : ModelOut)
    (batchSize : ℕ) : Option (List ℚ) :=
  match output with
  | .multi ts =>
      if 2 ≤ ts.length then
        some (klFormatErrors exp (ts.getD 0 ⟨[], []⟩) (ts.getD 1 ⟨[], []⟩) batchSize)
      else
        match ts with
        | [] => none
        | t :: _ => some (singleTensorErrors sq input t batchSize)
  | .single t => some (singleTensorErrors sq input t batchSize)

/-- tf.tensor3d on a nested array: shape inferred from the nesting, data in
row-major order. -/
def tensor3d (batch : List (List (List ℚ))) : Tensor :=
  { shape := [batch.length, (batch.headD []).length, ((batch.headD []).headD []).length],
    data := (batch.map (fun w => w.flatten)).flatten }

/-- Fuel-driven recursion of chunksOf; the fuel is an upper bound on the list
length, so the fuel-out case is unreachable. -/
def chunksOfGo : ℕ → List α → List (List α)
  | 0, _ => []
  | _ + 1, [] => []
  | fuel + 1, a :: rest => ((a :: rest).take 32) :: chunksOfGo fuel ((a :: rest).drop 32)

/-- Partition a list into the fixed batches of 32 used by calibrate. -/
def chunksOf (l : List α) : List (List α) := chunksOfGo l.length l

/-- One calibration batch: scale every window of the chunk, build the input
tensor, run the model, reduce to per-sample errors. -/
def chunkErrors (exp sq : ℚ → ℚ) (scaler : Scaler) (m : Tensor → ModelOut)
    (chunk : List RawWindow) : Option (List ℚ) :=
  let scaled := chunk.map (fun win => win.map (fun row => scaleRow scaler row))
  let input := tensor3d scaled
  computeBatchErrors exp sq input (m input) chunk.length

/-- All per-sample errors accumulated by calibrate, in batch order. -/
def calibrationErrors (exp sq : ℚ → ℚ) (scaler : Scaler) (m : Tensor → ModelOut)
    (ws : List RawWindow) : Option (List ℚ) :=
  (chunksOf ws).foldr (fun chunk acc =>
    match chunkErrors exp sq scaler m chunk, acc with
    | some errs, some rest => some (errs ++ rest)
    | _, _ => none) (some [])

/-- calibrate: batch all windows through the model, sort the accumulated
errors ascending, store the floor-based 95th-percentile value as the
threshold.  Empty input resets the threshold to null without touching the
model. -/
def calibrate (exp sq : ℚ → ℚ) (m : Tensor → ModelOut) (st : VAEState)
    (allWindows : List RawWindow) : Except String (CalibResult × VAEState) :=
  if st.ready = false ∨ st.modelLoaded = false then
    .error "VAE not ready - call VAE.load() first"
  else if allWindows.length = 0 then
    .ok ({ threshold := none, windowCount := 0, isReliable := false },
         { st with threshold := none })
  else
    match calibrationErrors exp sq st.scaler m allWindows with
    | none => .error "TypeError: undefined model output"
    | some allErrors =>
      let sorted := allErrors.insertionSort (· ≤ ·)
      let p95Idx := min (sorted.length * 95 / 100) (sorted.length - 1)
      let thr := sorted.getD p95Idx 0
      .ok ({ threshold := some thr, windowCount := allWindows.length,
             isReliable := decide (200 ≤ allWindows.length) },
           { st with threshold := some thr })

/-- score: requires readiness and a calibrated threshold, scales the window,
runs the model on a batch of one, and derives reconError / confidence /
isAnomaly. -/
def score (exp sq : ℚ → ℚ) (m : Tensor → ModelOut) (st : VAEState)
    (window20x7 : RawWindow) : Except String ScoreResult :=
  if st.ready = false ∨ st.modelLoaded = false then .error "VAE not ready"
  else
    match st.threshold with
    | none => .error "Call VAE.calibrate() before VAE.score()"
    | some thr =>
      let scaled := window20x7.map (fun row => scaleRow st.scaler row)
      let input := tensor3d [scaled]
      match computeBatchErrors exp sq input (m input) 1 with
      | none => .error "TypeError: undefined model output"
      | some errs =>
        let reconError := errs.getD 0 0
        let confidence := jsMin 1 (jsMax 0 (1 - reconError / thr))
        .ok { reconError := reconError, confidence := confidence,
              isAnomaly := decide (thr < reconError), threshold := thr }

/-- Input bar; the module only reads close and volume. -/
structure Bar where
  close : ℚ
  volume : ℚ
deriving Repr, DecidableEq

/-- Recursion of _ema: a null input propagates the last EMA unchanged, a value
seeds the EMA (first value) or advances it with weight alpha. -/
def emaGo (alpha : ℚ) : Option ℚ → List (Option ℚ) → List (Option ℚ)
  | _, [] => []
  | acc, none :: rest => acc :: emaGo alpha acc rest
  | acc, some v :: rest =>
      let e := match acc with
        | none => v
        | some prev => v * alpha + prev * (1 - alpha)
      some e :: emaGo alpha (some e) rest

/-- _ema: standard EMA with alpha = 2/(period+1), seeded with the first
observed value. -/
def ema (data : List (Option ℚ)) (period : ℕ) : List (Option ℚ) :=
  emaGo (2 / ((period : ℚ) + 1)) none data

/-- The toRsi helper of _rsiWilder: RSI is 100 when the average loss is
numerically zero (below 1e-10). -/
def toRsi (g l : ℚ) : ℚ :=
  if l < 1 / 10000000000 then 100 else 100 - 100 / (1 + g / l)

/-- Main loop of _rsiWilder: advance avgGain/avgLoss with the Wilder smoothed
moving average avg = (avg*(period-1) + x) / period and emit an RSI value per
step. -/
def wilderRsiGo (period : ℕ) : ℚ → ℚ → List (ℚ × ℚ) → List (Option ℚ)
  | _, _, [] => []
  | avgGain, avgLoss, (g, l) :: rest =>
      let ag := (avgGain * ((period : ℚ) - 1) + g) / (period : ℚ)
      let al := (avgLoss * ((period : ℚ) - 1) + l) / (period : ℚ)
      some (toRsi ag al) :: wilderRsiGo period ag al rest

/-- _rsiWilder: all-null when n < period + 1; otherwise null up to index
period - 1, the SMA-seeded value at index period, then Wilder recursion. -/
def rsiWilder (closes : List ℚ) (period : ℕ) : List (Option ℚ) :=
  let n := closes.length
  if n < period + 1 then List.replicate n none
  else
    let deltas := (closes.tail.zip closes).map (fun p => p.1 - p.2)
    let gains := deltas.map (fun d => if 0 < d then d else 0)
    let losses := deltas.map (fun d => if d < 0 then -d else 0)
    let avgGain0 := (gains.take period).sum / (period : ℚ)
    let avgLoss0 := (losses.take period).sum / (period : ℚ)
    List.replicate period none ++
      some (toRsi avgGain0 avgLoss0) ::
        wilderRsiGo period avgGain0 avgLoss0
          ((gains.drop period).zip (losses.drop period))

/-- Comparison definition following the spec only: the same RSI pipeline with
the generic EMA smoothing avg = avg*(1-alpha) + x*alpha, alpha = 2/(period+1),
substituted for Wilder smoothing (spec section 8 property 3). -/
def emaRsiGo (alpha : ℚ) : ℚ → ℚ → List (ℚ × ℚ) → List (Option ℚ)
  | _, _, [] => []
  | avgGain, avgLoss, (g, l) :: rest =>
      let ag := avgGain * (1 - alpha) + g * alpha
      let al := avgLoss * (1 - alpha) + l * alpha
      some (toRsi ag al) :: emaRsiGo alpha ag al rest

/-- Comparison definition following the spec only: naively-EMA-smoothed RSI,
identical to rsiWilder except for the smoothing constant 2/(period+1). -/
def rsiEmaSmoothedSpec (closes : List ℚ) (period : ℕ) : List (Option ℚ) :=
  let n := closes.length
  if n < period + 1 then List.replicate n none
  else
    let deltas := (closes.tail.zip closes).map (fun p => p.1 - p.2)
    let gains := deltas.map (fun d => if 0 < d then d else 0)
    let losses := deltas.map (fun d => if d < 0 then -d else 0)
    let avgGain0 := (gains.take period).sum / (period : ℚ)
    let avgLoss0 := (losses.take period).sum / (period : ℚ)
    List.replicate period none ++
      some (toRsi avgGain0 avgLoss0) ::
        emaRsiGo (2 / ((period : ℚ) + 1)) avgGain0 avgLoss0
          ((gains.drop period).zip (losses.drop period))

/-- Null-propagating subtraction used by the MACD line and histogram. -/
def optSub (a b : Option ℚ) : Option ℚ :=
  match a, b with
  | some x, some y => some (x - y)
  | _, _ => none

/-- _computeMacd: MACD line = EMA12 - EMA26 where both defined; signal = EMA9
of the null-stripped MACD line re-aligned at the first non-null index;
histogram = MACD - signal.  Returns (macdLine, signalLine, histogram). -/
def computeMacd (closes : List ℚ) :
    List (Option ℚ) × List (Option ℚ) × List (Option ℚ) :=
  let n := closes.length
  let ema12 := ema (closes.map some) 12
  let ema26 := ema (closes.map some) 26
  let macdLine := (List.range n).map (fun i =>
    optSub (ema12.getD i none) (ema26.getD i none))
  let macdNonNull := macdLine.filterMap id
  let signalCompact := ema (macdNonNull.map some) 9
  let fstIdx := macdLine.findIdx (fun v => v.isSome)
  let signalLine := (List.range n).map (fun i =>
    if fstIdx ≤ i then signalCompact.getD (i - fstIdx) none else none)
  let histogram := (List.range n).map (fun i =>
    optSub (macdLine.getD i none) (signalLine.getD i none))
  (macdLine, signalLine, histogram)

/-- _sma: arithmetic mean of the trailing period values, null for
i < period - 1. -/
def sma (data : List ℚ) (period : ℕ) : List (Option ℚ) :=
  (List.range data.length).map (fun i =>
    if period ≤ i + 1 then
      some (((data.drop (i + 1 - period)).take period).sum / (period : ℚ))
    else none)

/-- _bollingerBands: population standard deviation of the trailing window,
upper/lower = mean plus/minus multiplier * sd.  Returns (upper, lower). -/
def bollingerBands (sq : ℚ → ℚ) (closes : List ℚ) (period : ℕ)
    (multiplier : ℚ) : List (Option ℚ) × List (Option ℚ) :=
  let smaL := sma closes period
  let upper := (List.range closes.length).map (fun i =>
    if period ≤ i + 1 then
      match smaL.getD i none with
      | some mean =>
        let slice := (closes.drop (i + 1 - period)).take period
        let variance := (slice.map (fun v => (v - mean) * (v - mean))).sum / (period : ℚ)
        some (mean + multiplier * sq variance)
      | none => none
    else none)
  let lower := (List.range closes.length).map (fun i =>
    if period ≤ i + 1 then
      match smaL.getD i none with
      | some mean =>
        let slice := (closes.drop (i + 1 - period)).take period
        let variance := (slice.map (fun v => (v - mean) * (v - mean))).sum / (period : ℚ)
        some (mean - multiplier * sq variance)
      | none => none
    else none)
  (upper, lower)

/-- BB position value once both bands are defined: (close - lower) / range,
or the 0.5 sentinel when the range is not above 1e-10. -/
def bbPositionValue (c u lo : ℚ) : ℚ :=
  if 1 / 10000000000 < u - lo then (c - lo) / (u - lo) else 1 / 2

/-- _computeFeatureMatrix: the (N, 7) raw feature matrix in column order
RSI14, MACD, MACD_Hist, BB_Position, Vol_Ratio, Momentum, SMA_Ratio. -/
def computeFeatureMatrix (sq : ℚ → ℚ) (rawData : List Bar) :
    List (List (Option ℚ)) :=
  let closes := rawData.map (fun d => d.close)
  let volumes := rawData.map (fun d => d.volume)
  let n := closes.length
  let rsi14 := rsiWilder closes 14
  let macdTriple := computeMacd closes
  let macdLine := macdTriple.1
  let histogram := macdTriple.2.2
  let bands := bollingerBands sq closes 20 2
  let sma50 := sma closes 50
  let volSma20 := sma volumes 20
  (List.range n).map (fun i =>
    let c := closes.getD i 0
    let bbPos : Option ℚ :=
      match bands.1.getD i none, bands.2.getD i none with
      | some u, some lo => some (bbPositionValue c u lo)
      | _, _ => none
    let volOverSma : Option ℚ :=
      match volSma20.getD i none with
      | some s => if 0 < s then some (volumes.getD i 0 / s) else none
      | none => none
    let momentum : Option ℚ :=
      if 10 ≤ i ∧ 0 < closes.getD (i - 10) 0 then
        some ((c - closes.getD (i - 10) 0) / closes.getD (i - 10) 0 * 100)
      else none
    let closeOverSma : Option ℚ :=
      match sma50.getD i none with
      | some s => if 0 < s then some (c / s) else none
      | none => none
    [rsi14.getD i none, macdLine.getD i none, histogram.getD i none,
     bbPos, volOverSma, momentum, closeOverSma])

/-- Forward-fill pass of _fillNulls: each null takes the last non-null value
seen (leading nulls stay null). -/
def fwdFillGo : Option ℚ → List (Option ℚ) → List (Option ℚ)
  | _, [] => []
  | last, none :: rest => last :: fwdFillGo last rest
  | _, some v :: rest => some v :: fwdFillGo (some v) rest

/-- Replace the leading nulls of a column with the given value and stop at the
first non-null (the SMA_Ratio prefill loop and the backward-fill write). -/
def padLeading (v : ℚ) : List (Option ℚ) → List (Option ℚ)
  | [] => []
  | none :: rest => some v :: padLeading v rest
  | some x :: rest => some x :: rest

/-- Backward-fill pass of _fillNulls: copy the first non-null value over the
leading nulls; a column with no value at all is unchanged. -/
def backFill (col : List (Option ℚ)) : List (Option ℚ) :=
  match col.findSome? id with
  | none => col
  | some v => padLeading v col

/-- Per-column work of _fillNulls: the SMA_Ratio 1.0 prefill (column 6 only),
then forward fill, then backward fill. -/
def fillColumn (isSmaCol : Bool) (col : List (Option ℚ)) : List (Option ℚ) :=
  let col1 := if isSmaCol then padLeading 1 col else col
  backFill (fwdFillGo none col1)

/-- _fillNulls on the (N, 7) matrix, expressed column-wise (the JS loops
mutate one column at a time). -/
def fillNulls (features : List (List (Option ℚ))) : List (List (Option ℚ)) :=
  let cols := (List.range 7).map (fun f =>
    fillColumn (f == 6) (features.map (fun row => row.getD f none)))
  (List.range features.length).map (fun i => cols.map (fun c => c.getD i none))

/-- buildWindows: feature matrix, null fill, then every trailing slice of
windowSize rows (windowSize || 20). -/
def buildWindows (sq : ℚ → ℚ) (rawData : List Bar) (windowSize : ℕ) :
    List RawWindow :=
  let ws := if windowSize = 0 then 20 else windowSize
  let filled := fillNulls (computeFeatureMatrix sq rawData)
  (List.range (filled.length + 1 - ws)).map (fun k => (filled.drop k).take ws)

/-! General list helpers shared by several claims. -/

theorem getD_range_map {α : Type} (g : ℕ → α) (n i : ℕ) (d : α) (h : i < n) :
    ((List.range n).map g).getD i d = g i := by
  rw [List.getD_eq_getElem?_getD, List.getElem?_map, List.getElem?_range h]
  rfl

theorem getD_mem_of_lt {α : Type} {l : List α} {i : ℕ} (d : α) (h : i < l.length) :
    l.getD i d ∈ l := by
  rw [List.getD_eq_getElem?_getD, List.getElem?_eq_getElem h]
  exact List.getElem_mem h

theorem map_getD_mem {α β : Type} (l : List α) (g : α → β) (i : ℕ) (d : α)
    (h : i < l.length) : g (l.getD i d) ∈ l.map g := by
  rw [List.getD_eq_getElem?_getD, List.getElem?_eq_getElem h]
  exact List.mem_map_of_mem g (List.getElem_mem h)

/-- C8 claim theorem.  Zero-range or zero-scale denominators produce the
deterministic sentinels: RSI is 100 when the average loss is below 1e-10,
BB_Position is 0.5 when the band range is below 1e-10, and a scaled feature
is 0 when its scale parameter is 0. -/
theorem c8_numeric_sentinels :
    (∀ g l : ℚ, l < 1 / 10000000000 → toRsi g l = 100)
    ∧ (∀ c u lo : ℚ, u - lo < 1 / 10000000000 → bbPositionValue c u lo = 1 / 2)
    ∧ (∀ (scaler : Scaler) (row : List (Option ℚ)) (i : ℕ), i < row.length →
        scaler.scale.getD i 0 = 0 → (scaleRow scaler row).getD i 1 = 0) := by
  refine ⟨?_, ?_, ?_⟩
  · intro g l h
    unfold toRsi
    rw [if_pos h]
  · intro c u lo h
    unfold bbPositionValue
    rw [if_neg (not_lt.mpr (le_of_lt h))]
  · intro scaler row i hi hscale
    unfold scaleRow
    rw [getD_range_map _ _ _ _ hi, if_pos hscale]

/-- Witness for C8 at concrete inputs. -/
theorem c8_numeric_sentinels_witness :
    toRsi 5 0 = 100 ∧ bbPositionValue 3 2 2 = 1 / 2 ∧
      (scaleRow ⟨[0], [0]⟩ [some 7]).getD 0 1 = 0 :=
  ⟨c8_numeric_sentinels.1 5 0 (by norm_num),
   c8_numeric_sentinels.2.1 3 2 2 (by norm_num),
   c8_numeric_sentinels.2.2 ⟨[0], [0]⟩ [some 7] 0 (by decide) (by decide)⟩

/-- C6 claim theorem.  While the stored threshold is null, score returns no
result: it always fails, and when the module is ready the failure is the
calibration precondition error. -/
theorem c6_score_requires_calibration (exp sq : ℚ → ℚ) (m : Tensor → ModelOut)
    (st : VAEState) (w : RawWindow) (hthr : st.threshold = none) :
    (∃ e, score exp sq m st w = .error e)
    ∧ (st.ready = true → st.modelLoaded = true →
        score exp sq m st w = .error "Call VAE.calibrate() before VAE.score()") := by
  by_cases h : st.ready = false ∨ st.modelLoaded = false
  · constructor
    · exact ⟨"VAE not ready", by simp [score, h]⟩
    · intro h1 h2
      rcases h with h | h
      · rw [h1] at h; cases h
      · rw [h2] at h; cases h
  · constructor
    · exact ⟨"Call VAE.calibrate() before VAE.score()", by simp [score, h, hthr]⟩
    · intro _ _
      simp [score, h, hthr]

/-- Witness for C6 at a concrete ready state with a null threshold. -/
theorem c6_score_requires_calibration_witness :
    (∃ e, score (fun _ => 1) (fun _ => 0) (fun _ => ModelOut.single ⟨[], []⟩)
        { ready := true, modelLoaded := true, scaler := ⟨[], []⟩, threshold := none }
        [] = .error e)
    ∧ (true = true → true = true →
        score (fun _ => 1) (fun _ => 0) (fun _ => ModelOut.single ⟨[], []⟩)
          { ready := true, modelLoaded := true, scaler := ⟨[], []⟩, threshold := none }
          [] = .error "Call VAE.calibrate() before VAE.score()") :=
  c6_score_requires_calibration (fun _ => 1) (fun _ => 0)
    (fun _ => ModelOut.single ⟨[], []⟩)
    { ready := true, modelLoaded := true, scaler := ⟨[], []⟩, threshold := none }
    [] rfl

/-- C7 claim theorem.  calibrate on an empty window collection returns the
degenerate result and null threshold; the result is the same for every model
adapter, so the adapter is never invoked. -/
theorem c7_calibrate_empty (exp sq : ℚ → ℚ) (st : VAEState)
    (hready : st.ready = true) (hmodel : st.modelLoaded = true) :
    ∀ m : Tensor → ModelOut,
      calibrate exp sq m st [] =
        .ok ({ threshold := none, windowCount := 0, isReliable := false },
             { st with threshold := none }) := by
  intro m
  unfold calibrate
  rw [if_neg (by simp [hready, hmodel])]
  rfl

/-- Witness for C7 at a concrete ready state. -/
theorem c7_calibrate_empty_witness :
    calibrate (fun _ => 1) (fun _ => 0) (fun _ => ModelOut.single ⟨[], []⟩)
      { ready := true, modelLoaded := true, scaler := ⟨[], []⟩, threshold := some 3 }
      [] =
      .ok ({ threshold := none, windowCount := 0, isReliable := false },
           { ready := true, modelLoaded := true, scaler := ⟨[], []⟩,
             threshold := none }) :=
  c7_calibrate_empty (fun _ => 1) (fun _ => 0)
    { ready := true, modelLoaded := true, scaler := ⟨[], []⟩, threshold := some 3 }
    rfl rfl (fun _ => ModelOut.single ⟨[], []⟩)

/-- C10 claim theorem.  An empty calibrate resets a previously successful
threshold to null, after which every score call fails with the calibration
precondition error. -/
theorem c10_empty_calibrate_resets (exp sq : ℚ → ℚ) (m : Tensor → ModelOut)
    (st : VAEState) (t : ℚ) (hready : st.ready = true)
    (hmodel : st.modelLoaded = true) (_hprev : st.threshold = some t) :
    ∃ st', calibrate exp sq m st [] =
        .ok ({ threshold := none, windowCount := 0, isReliable := false }, st')
      ∧ st'.threshold = none
      ∧ ∀ (exp' sq' : ℚ → ℚ) (m' : Tensor → ModelOut) (w : RawWindow),
          score exp' sq' m' st' w =
            .error "Call VAE.calibrate() before VAE.score()" := by
  refine ⟨{ st with threshold := none }, ?_, rfl, ?_⟩
  · unfold calibrate
    rw [if_neg (by simp [hready, hmodel])]
    rfl
  · intro exp' sq' m' w
    simp [score, hready, hmodel]

/-- Witness for C10 at a concrete previously calibrated state. -/
theorem c10_empty_calibrate_resets_witness :
    ∃ st', calibrate (fun _ => 1) (fun _ => 0) (fun _ => ModelOut.single ⟨[], []⟩)
        { ready := true, modelLoaded := true, scaler := ⟨[], []⟩, threshold := some 7 }
        [] =
        .ok ({ threshold := none, windowCount := 0, isReliable := false }, st')
      ∧ st'.threshold = none
      ∧ ∀ (exp' sq' : ℚ → ℚ) (m' : Tensor → ModelOut) (w : RawWindow),
          score exp' sq' m' st' w =
            .error "Call VAE.calibrate() before VAE.score()" :=
  c10_empty_calibrate_resets (fun _ => 1) (fun _ => 0)
    (fun _ => ModelOut.single ⟨[], []⟩)
    { ready := true, modelLoaded := true, scaler := ⟨[], []⟩, threshold := some 7 }
    7 rfl rfl rfl

/-- C3 claim theorem.  After a successful calibration (non-null threshold t),
every successful score result has confidence = clip(1 - reconError/t, 0, 1),
which lies in [0, 1], and echoes t. -/
theorem c3_confidence_clipped (exp sq : ℚ → ℚ) (m : Tensor → ModelOut)
    (st : VAEState) (w : RawWindow) (t : ℚ) (r : ScoreResult)
    (hthr : st.threshold = some t) (hok : score exp sq m st w = .ok r) :
    r.confidence = min 1 (max 0 (1 - r.reconError / t))
    ∧ 0 ≤ r.confidence ∧ r.confidence ≤ 1 ∧ r.threshold = t := by
  unfold score at hok
  by_cases h : st.ready = false ∨ st.modelLoaded = false
  · rw [if_pos h] at hok
    cases hok
  · rw [if_neg h, hthr] at hok
    simp only [] at hok
    cases hcbe : computeBatchErrors exp sq
        (tensor3d [w.map (fun row => scaleRow st.scaler row)])
        (m (tensor3d [w.map (fun row => scaleRow st.scaler row)])) 1 with
    | none =>
      rw [hcbe] at hok
      cases hok
    | some errs =>
      rw [hcbe] at hok
      simp only [Except.ok.injEq] at hok
      subst hok
      refine ⟨by rw [jsMin_eq_min, jsMax_eq_max], ?_, ?_, rfl⟩
      · rw [jsMin_eq_min, jsMax_eq_max]
        exact le_min (by norm_num) (le_max_left 0 _)
      · rw [jsMin_eq_min]
        exact min_le_left 1 _

/-- Witness for C3: a concrete scored result through a KL-format stub model. -/
theorem c3_confidence_clipped_witness :
    ScoreResult.confidence ⟨0, 1, false, 1⟩ =
      min 1 (max 0 (1 - ScoreResult.reconError ⟨0, 1, false, 1⟩ / 1))
    ∧ 0 ≤ ScoreResult.confidence ⟨0, 1, false, 1⟩
    ∧ ScoreResult.confidence ⟨0, 1, false, 1⟩ ≤ 1
    ∧ ScoreResult.threshold ⟨0, 1, false, 1⟩ = 1 :=
  c3_confidence_clipped (fun _ => 1) (fun _ => 0)
    (fun _ => ModelOut.multi [⟨[1, 8], List.replicate 8 0⟩, ⟨[1, 8], List.replicate 8 0⟩])
    { ready := true, modelLoaded := true,
      scaler := ⟨List.replicate 7 0, List.replicate 7 1⟩, threshold := some 1 }
    [] 1 ⟨0, 1, false, 1⟩ rfl
    (by unfold score
        norm_num [computeBatchErrors, klFormatErrors, jsMax, jsMin, List.range_succ])

/-! Shape and non-negativity facts about the three error formats, shared by
C1 and C2. -/

theorem klFormatErrors_spec (exp : ℚ → ℚ) (t0 t1 : Tensor) (bs : ℕ) :
    (klFormatErrors exp t0 t1 bs).length = bs ∧
      ∀ e ∈ klFormatErrors exp t0 t1 bs, 0 ≤ e := by
  constructor
  · simp [klFormatErrors]
  · intro e he
    simp only [klFormatErrors, List.mem_map] at he
    obtain ⟨b, -, rfl⟩ := he
    show 0 ≤ jsMax 0 _
    rw [jsMax_eq_max]
    exact le_max_left 0 _

theorem mseFormatErrors_spec (input t : Tensor) (bs : ℕ) :
    (mseFormatErrors input t bs).length = bs ∧
      ∀ e ∈ mseFormatErrors input t bs, 0 ≤ e := by
  constructor
  · simp [mseFormatErrors]
  · intro e he
    simp only [mseFormatErrors, List.mem_map] at he
    obtain ⟨b, -, rfl⟩ := he
    show 0 ≤ jsMax 0 _
    rw [jsMax_eq_max]
    exact le_max_left 0 _

theorem l2FormatErrors_spec (sq : ℚ → ℚ) (t : Tensor) (bs : ℕ) :
    (l2FormatErrors sq t bs).length = bs ∧
      ∀ e ∈ l2FormatErrors sq t bs, 0 ≤ e := by
  constructor
  · simp [l2FormatErrors]
  · intro e he
    simp only [l2FormatErrors, List.mem_map] at he
    obtain ⟨b, -, rfl⟩ := he
    show 0 ≤ jsMax 0 _
    rw [jsMax_eq_max]
    exact le_max_left 0 _

theorem singleTensorErrors_spec (sq : ℚ → ℚ) (input t : Tensor) (bs : ℕ) :
    (singleTensorErrors sq input t bs).length = bs ∧
      ∀ e ∈ singleTensorErrors sq input t bs, 0 ≤ e := by
  unfold singleTensorErrors
  by_cases h : shapeMatchB input t
  · rw [if_pos h]; exact mseFormatErrors_spec input t bs
  · rw [if_neg h]; exact l2FormatErrors_spec sq t bs

/-- Every successful computeBatchErrors call returns exactly batchSize
non-negative errors. -/
theorem computeBatchErrors_some_spec (exp sq : ℚ → ℚ) (input : Tensor)
    (out : ModelOut) (bs : ℕ) (errs : List ℚ)
    (h : computeBatchErrors exp sq input out bs = some errs) :
    errs.length = bs ∧ ∀ e ∈ errs, 0 ≤ e := by
  unfold computeBatchErrors at h
  cases out with
  | single t =>
    simp only [Option.some.injEq] at h
    subst h
    exact singleTensorErrors_spec sq input t bs
  | multi ts =>
    dsimp only at h
    by_cases hlen : 2 ≤ ts.length
    · rw [if_pos hlen] at h
      simp only [Option.some.injEq] at h
      subst h
      exact klFormatErrors_spec exp _ _ bs
    · rw [if_neg hlen] at h
      cases ts with
      | nil => cases h
      | cons t rest =>
        simp only [Option.some.injEq] at h
        subst h
        exact singleTensorErrors_spec sq input t bs

/-- C1 counterexample.  The Format-B test of _computeBatchErrors compares
only the rank and dimensions 1 and 2, never the batch dimension: a single
output tensor of shape (2,1,1) against an input of shape (1,1,1) has a shape
that does not match the input, yet the code classifies it as Format B and
returns the MSE array [1], not the Format C Euclidean-norm array [0] that an
exact-shape-match dispatch would require. -/
theorem c1_counterexample :
    Tensor.shape ⟨[2, 1, 1], [1, 1]⟩ ≠ Tensor.shape ⟨[1, 1, 1], [0]⟩
    ∧ computeBatchErrors (fun _ => 1) (fun _ => 0) ⟨[1, 1, 1], [0]⟩
        (ModelOut.single ⟨[2, 1, 1], [1, 1]⟩) 1 =
      some (mseFormatErrors ⟨[1, 1, 1], [0]⟩ ⟨[2, 1, 1], [1, 1]⟩ 1)
    ∧ mseFormatErrors ⟨[1, 1, 1], [0]⟩ ⟨[2, 1, 1], [1, 1]⟩ 1 = [1]
    ∧ l2FormatErrors (fun _ => 0) ⟨[2, 1, 1], [1, 1]⟩ 1 = [0] := by
  refine ⟨by decide, rfl, ?_, ?_⟩
  · norm_num [mseFormatErrors, jsMax, List.range_succ]
  · norm_num [l2FormatErrors, jsMax, List.range_succ]

/-- C1 amended claim theorem.  computeBatchErrors classifies with the
precedence Format A (two or more tensors), then Format B (single rank-3
tensor whose dimensions 1 and 2 equal those of the input batch — the batch
dimension is not compared), then Format C, and in every format returns
exactly batchSize non-negative scalar errors. -/
theorem c1_format_detection (exp sq : ℚ → ℚ) (input : Tensor) (out : ModelOut)
    (bs : ℕ) :
    (∀ ts, out = ModelOut.multi ts → 2 ≤ ts.length →
        computeBatchErrors exp sq input out bs =
          some (klFormatErrors exp (ts.getD 0 ⟨[], []⟩) (ts.getD 1 ⟨[], []⟩) bs))
    ∧ (∀ t, singleTensorOf out = some t →
        computeBatchErrors exp sq input out bs =
          some (if shapeMatchB input t then mseFormatErrors input t bs
                else l2FormatErrors sq t bs))
    ∧ (∀ errs, computeBatchErrors exp sq input out bs = some errs →
        errs.length = bs ∧ ∀ e ∈ errs, 0 ≤ e) := by
  refine ⟨?_, ?_, ?_⟩
  · rintro ts rfl hlen
    unfold computeBatchErrors
    dsimp only
    rw [if_pos hlen]
  · intro t hsingle
    cases out with
    | single t' =>
      simp only [singleTensorOf, Option.some.injEq] at hsingle
      subst hsingle
      rfl
    | multi ts =>
      match ts with
      | [] => cases hsingle
      | [t'] =>
        simp only [singleTensorOf, Option.some.injEq] at hsingle
        subst hsingle
        rfl
      | t' :: t'' :: rest => cases hsingle
  · intro errs h
    exact computeBatchErrors_some_spec exp sq input out bs errs h

/-- Witness for C1: the three stub outputs of the spec scenario, on a single
sample, land in their three formats with a length-1 non-negative error list
each. -/
theorem c1_format_detection_witness :
    (computeBatchErrors (fun _ => 1) (fun _ => 0) (tensor3d [[[2, 3]]])
        (ModelOut.multi [⟨[1, 8], List.replicate 8 0⟩, ⟨[1, 8], List.replicate 8 0⟩]) 1 =
      some (klFormatErrors (fun _ => 1) ⟨[1, 8], List.replicate 8 0⟩
        ⟨[1, 8], List.replicate 8 0⟩ 1))
    ∧ (computeBatchErrors (fun _ => 1) (fun _ => 0) (tensor3d [[[2, 3]]])
        (ModelOut.single ⟨[1, 1, 2], [0, 0]⟩) 1 =
      some (if shapeMatchB (tensor3d [[[2, 3]]]) ⟨[1, 1, 2], [0, 0]⟩ then
              mseFormatErrors (tensor3d [[[2, 3]]]) ⟨[1, 1, 2], [0, 0]⟩ 1
            else l2FormatErrors (fun _ => 0) ⟨[1, 1, 2], [0, 0]⟩ 1))
    ∧ (computeBatchErrors (fun _ => 1) (fun _ => 0) (tensor3d [[[2, 3]]])
        (ModelOut.single ⟨[1, 4], [1, 2, 3, 4]⟩) 1 =
      some (if shapeMatchB (tensor3d [[[2, 3]]]) ⟨[1, 4], [1, 2, 3, 4]⟩ then
              mseFormatErrors (tensor3d [[[2, 3]]]) ⟨[1, 4], [1, 2, 3, 4]⟩ 1
            else l2FormatErrors (fun _ => 0) ⟨[1, 4], [1, 2, 3, 4]⟩ 1))
    ∧ ∀ errs, computeBatchErrors (fun _ => 1) (fun _ => 0) (tensor3d [[[2, 3]]])
        (ModelOut.multi [⟨[1, 8], List.replicate 8 0⟩, ⟨[1, 8], List.replicate 8 0⟩]) 1 =
          some errs → errs.length = 1 ∧ ∀ e ∈ errs, 0 ≤ e :=
  ⟨(c1_format_detection (fun _ => 1) (fun _ => 0) (tensor3d [[[2, 3]]])
      (ModelOut.multi [⟨[1, 8], List.replicate 8 0⟩, ⟨[1, 8], List.replicate 8 0⟩]) 1).1
      [⟨[1, 8], List.replicate 8 0⟩, ⟨[1, 8], List.replicate 8 0⟩] rfl (by decide),
   (c1_format_detection (fun _ => 1) (fun _ => 0) (tensor3d [[[2, 3]]])
      (ModelOut.single ⟨[1, 1, 2], [0, 0]⟩) 1).2.1 ⟨[1, 1, 2], [0, 0]⟩ rfl,
   (c1_format_detection (fun _ => 1) (fun _ => 0) (tensor3d [[[2, 3]]])
      (ModelOut.single ⟨[1, 4], [1, 2, 3, 4]⟩) 1).2.1 ⟨[1, 4], [1, 2, 3, 4]⟩ rfl,
   (c1_format_detection (fun _ => 1) (fun _ => 0) (tensor3d [[[2, 3]]])
      (ModelOut.multi [⟨[1, 8], List.replicate 8 0⟩, ⟨[1, 8], List.replicate 8 0⟩]) 1).2.2⟩

/-- C5 claim theorem.  In Format A the per-sample error is the mean over
latent dimensions of -0.5*(1 + logvar - mean^2 - exp(logvar)) with logvar
clipped to [-10, 50], clamped to be non-negative; and in the concrete spec
scenario (unit scaler, stub adapter returning zero mean and zero log-variance
of width 8 for a single-sample batch) the error is exactly 0 and the scored
confidence is 1 once a positive threshold t is calibrated. -/
theorem c5_format_a_kl (exp sq : ℚ → ℚ) (t : ℚ) (hexp : exp 0 = 1)
    (hpos : 0 < t) :
    (∀ (input t0 t1 : Tensor) (rest : List Tensor) (bs b : ℕ) (errs : List ℚ),
        computeBatchErrors exp sq input (ModelOut.multi (t0 :: t1 :: rest)) bs =
            some errs →
        b < bs →
        errs.getD b 0 =
          (let D := if t0.shape.getD 1 0 = 0 then 8 else t0.shape.getD 1 0;
           max 0 ((((List.range D).map (fun d =>
             let mu := t0.data.getD (b * D + d) 0;
             let lv := max (-10 : ℚ) (min 50 (t1.data.getD (b * D + d) 0));
             -(1/2 : ℚ) * (1 + lv - mu * mu - exp lv))).sum) / (D : ℚ))))
    ∧ score exp sq
        (fun _ => ModelOut.multi
          [⟨[1, 8], List.replicate 8 0⟩, ⟨[1, 8], List.replicate 8 0⟩])
        { ready := true, modelLoaded := true,
          scaler := ⟨List.replicate 7 0, List.replicate 7 1⟩,
          threshold := some t } [] =
        .ok { reconError := 0, confidence := 1, isAnomaly := false,
              threshold := t } := by
  constructor
  · intro input t0 t1 rest bs b errs h hb
    have h2 : errs = klFormatErrors exp t0 t1 bs := by
      unfold computeBatchErrors at h
      dsimp only at h
      rw [if_pos (by simp)] at h
      simp only [Option.some.injEq] at h
      exact h.symm
    subst h2
    unfold klFormatErrors
    rw [getD_range_map _ _ _ _ hb]
    simp only [jsMin_eq_min, jsMax_eq_max]
  · have hna : decide (t < 0) = false := by
      simp [not_lt.mpr (le_of_lt hpos)]
    unfold score
    norm_num [computeBatchErrors, klFormatErrors, jsMax, jsMin,
      List.range_succ, hexp, hna]

/-- Witness for C5 with exp 0 = 1 and the positive threshold 1. -/
theorem c5_format_a_kl_witness :
    (∀ (input t0 t1 : Tensor) (rest : List Tensor) (bs b : ℕ) (errs : List ℚ),
        computeBatchErrors (fun _ => 1) (fun _ => 0) input
            (ModelOut.multi (t0 :: t1 :: rest)) bs = some errs →
        b < bs →
        errs.getD b 0 =
          (let D := if t0.shape.getD 1 0 = 0 then 8 else t0.shape.getD 1 0;
           max 0 ((((List.range D).map (fun d =>
             let mu := t0.data.getD (b * D + d) 0;
             let lv := max (-10 : ℚ) (min 50 (t1.data.getD (b * D + d) 0));
             -(1/2 : ℚ) * (1 + lv - mu * mu - (fun _ => (1 : ℚ)) lv))).sum) / (D : ℚ))))
    ∧ score (fun _ => 1) (fun _ => 0)
        (fun _ => ModelOut.multi
          [⟨[1, 8], List.replicate 8 0⟩, ⟨[1, 8], List.replicate 8 0⟩])
        { ready := true, modelLoaded := true,
          scaler := ⟨List.replicate 7 0, List.replicate 7 1⟩,
          threshold := some 1 } [] =
        .ok { reconError := 0, confidence := 1, isAnomaly := false,
              threshold := 1 } :=
  c5_format_a_kl (fun _ => 1) (fun _ => 0) 1 rfl (by norm_num)

/-! Helpers for C2: the accumulated error collection has one entry per
window. -/

theorem chunksOfGo_flatten {α : Type} :
    ∀ (fuel : ℕ) (l : List α), l.length ≤ fuel → (chunksOfGo fuel l).flatten = l := by
  intro fuel
  induction fuel with
  | zero =>
    intro l hl
    rw [List.length_eq_zero.mp (Nat.le_zero.mp hl)]
    rfl
  | succ fuel ih =>
    intro l hl
    cases l with
    | nil => rfl
    | cons a rest =>
      show (((a :: rest).take 32) :: chunksOfGo fuel ((a :: rest).drop 32)).flatten = a :: rest
      rw [List.flatten_cons, ih ((a :: rest).drop 32) (by simp at hl ⊢; omega),
        List.take_append_drop]

theorem chunksOf_flatten {α : Type} (l : List α) : (chunksOf l).flatten = l :=
  chunksOfGo_flatten l.length l le_rfl

theorem chunkErrors_length (exp sq : ℚ → ℚ) (scaler : Scaler)
    (m : Tensor → ModelOut) (chunk : List RawWindow) (errs : List ℚ)
    (h : chunkErrors exp sq scaler m chunk = some errs) :
    errs.length = chunk.length := by
  unfold chunkErrors at h
  exact (computeBatchErrors_some_spec _ _ _ _ _ _ h).1

theorem calibrationErrors_length (exp sq : ℚ → ℚ) (scaler : Scaler)
    (m : Tensor → ModelOut) (ws : List RawWindow) (errs : List ℚ)
    (h : calibrationErrors exp sq scaler m ws = some errs) :
    errs.length = ws.length := by
  have aux : ∀ (cs : List (List RawWindow)) (es : List ℚ),
      cs.foldr (fun chunk acc =>
        match chunkErrors exp sq scaler m chunk, acc with
        | some errs, some rest => some (errs ++ rest)
        | _, _ => none) (some []) = some es →
      es.length = (cs.map List.length).sum := by
    intro cs
    induction cs with
    | nil =>
      intro es hes
      simp only [List.foldr_nil, Option.some.injEq] at hes
      simp [← hes]
    | cons c cs ih =>
      intro es hes
      simp only [List.foldr_cons] at hes
      cases hc : chunkErrors exp sq scaler m c with
      | none => rw [hc] at hes; cases hes
      | some e1 =>
        rw [hc] at hes
        cases hr : cs.foldr (fun chunk acc =>
            match chunkErrors exp sq scaler m chunk, acc with
            | some errs, some rest => some (errs ++ rest)
            | _, _ => none) (some []) with
        | none => rw [hr] at hes; cases hes
        | some rest =>
          rw [hr] at hes
          simp only [Option.some.injEq] at hes
          subst hes
          simp [chunkErrors_length exp sq scaler m c e1 hc, ih rest hr]
  have h2 := aux (chunksOf ws) errs h
  rw [h2, ← List.length_flatten, chunksOf_flatten]

/-- C2 claim theorem.  A successful non-empty calibration accumulates exactly
N = windowCount per-sample errors, sorts them ascending, and returns the
sorted element at index min(floor(0.95 N), N-1) as the threshold, with
windowCount = N and isReliable iff N is at least 200. -/
theorem c2_calibrate_percentile (exp sq : ℚ → ℚ) (m : Tensor → ModelOut)
    (st : VAEState) (ws : List RawWindow) (res : CalibResult) (st' : VAEState)
    (hok : calibrate exp sq m st ws = .ok (res, st')) (hne : ws ≠ []) :
    ∃ errs sorted, calibrationErrors exp sq st.scaler m ws = some errs ∧
      errs.length = ws.length ∧
      sorted = errs.insertionSort (· ≤ ·) ∧
      List.Sorted (· ≤ ·) sorted ∧ sorted.Perm errs ∧
      res.threshold =
        some (sorted.getD (min (ws.length * 95 / 100) (ws.length - 1)) 0) ∧
      res.windowCount = ws.length ∧
      (res.isReliable = true ↔ 200 ≤ ws.length) ∧
      st'.threshold = res.threshold := by
  unfold calibrate at hok
  by_cases h : st.ready = false ∨ st.modelLoaded = false
  · rw [if_pos h] at hok
    cases hok
  · rw [if_neg h, if_neg (by simpa [List.length_eq_zero] using hne)] at hok
    cases hce : calibrationErrors exp sq st.scaler m ws with
    | none => rw [hce] at hok; cases hok
    | some errs =>
      rw [hce] at hok
      simp only [Except.ok.injEq, Prod.mk.injEq] at hok
      obtain ⟨hres, hst⟩ := hok
      have hlen : errs.length = ws.length :=
        calibrationErrors_length exp sq st.scaler m ws errs hce
      have hsortlen : (errs.insertionSort (· ≤ ·)).length = ws.length := by
        rw [(List.perm_insertionSort (· ≤ ·) errs).length_eq, hlen]
      refine ⟨errs, errs.insertionSort (· ≤ ·), ?_, hlen, rfl,
        List.sorted_insertionSort (· ≤ ·) errs,
        List.perm_insertionSort (· ≤ ·) errs, ?_, ?_, ?_, ?_⟩
      · rfl
      · rw [← hres]
        simp [hsortlen]
      · rw [← hres]
      · rw [← hres]
        simp [decide_eq_true_iff]
      · rw [← hst, ← hres]

/-- Witness for C2: one window through a KL stub adapter gives one error,
threshold = sorted[min(floor(0.95*1), 0)] = 0 and isReliable false. -/
theorem c2_calibrate_percentile_witness :
    ∃ errs sorted,
      calibrationErrors (fun _ => 1) (fun _ => 0) ⟨List.replicate 7 0, List.replicate 7 1⟩
        (fun _ => ModelOut.multi
          [⟨[1, 8], List.replicate 8 0⟩, ⟨[1, 8], List.replicate 8 0⟩]) [[]] = some errs ∧
      errs.length = [([] : List (List (Option ℚ)))].length ∧
      sorted = errs.insertionSort (· ≤ ·) ∧
      List.Sorted (· ≤ ·) sorted ∧ sorted.Perm errs ∧
      (some (0 : ℚ) : Option ℚ) =
        some (sorted.getD (min ([([] : List (List (Option ℚ)))].length * 95 / 100)
          ([([] : List (List (Option ℚ)))].length - 1)) 0) ∧
      (1 : ℕ) = [([] : List (List (Option ℚ)))].length ∧
      (false = true ↔ 200 ≤ [([] : List (List (Option ℚ)))].length) ∧
      (some (0 : ℚ) : Option ℚ) = some 0 := by
  have h := c2_calibrate_percentile (fun _ => 1) (fun _ => 0)
    (fun _ => ModelOut.multi
      [⟨[1, 8], List.replicate 8 0⟩, ⟨[1, 8], List.replicate 8 0⟩])
    { ready := true, modelLoaded := true,
      scaler := ⟨List.replicate 7 0, List.replicate 7 1⟩, threshold := none }
    [[]]
    { threshold := some 0, windowCount := 1, isReliable := false }
    { ready := true, modelLoaded := true,
      scaler := ⟨List.replicate 7 0, List.replicate 7 1⟩, threshold := some 0 }
    (by unfold calibrate
        norm_num [calibrationErrors, chunksOf, chunksOfGo, chunkErrors,
          computeBatchErrors, klFormatErrors, tensor3d, jsMax, jsMin,
          List.range_succ, List.insertionSort, List.orderedInsert])
    (by simp)
  exact h

/-! Helpers for C9: on a monotone non-decreasing close series every loss is
zero, both smoothing conventions keep the average loss at zero, and both RSIs
are the 100 sentinel everywhere they are defined. -/

theorem toRsi_zero (g : ℚ) : toRsi g 0 = 100 := by
  unfold toRsi
  rw [if_pos (by norm_num)]

theorem wilderRsiGo_length (period : ℕ) :
    ∀ (ps : List (ℚ × ℚ)) (ag al : ℚ), (wilderRsiGo period ag al ps).length = ps.length := by
  intro ps
  induction ps with
  | nil => intro ag al; rfl
  | cons p rest ih =>
    intro ag al
    obtain ⟨g, l⟩ := p
    simp only [wilderRsiGo, List.length_cons, ih]

theorem emaRsiGo_length (alpha : ℚ) :
    ∀ (ps : List (ℚ × ℚ)) (ag al : ℚ), (emaRsiGo alpha ag al ps).length = ps.length := by
  intro ps
  induction ps with
  | nil => intro ag al; rfl
  | cons p rest ih =>
    intro ag al
    obtain ⟨g, l⟩ := p
    simp only [emaRsiGo, List.length_cons, ih]

theorem wilderRsiGo_all100 (period : ℕ) :
    ∀ (ps : List (ℚ × ℚ)) (ag : ℚ), (∀ p ∈ ps, p.2 = 0) →
      ∀ y ∈ wilderRsiGo period ag 0 ps, y = some 100 := by
  intro ps
  induction ps with
  | nil =>
    intro ag _ y hy
    simp [wilderRsiGo] at hy
  | cons p rest ih =>
    intro ag h y hy
    obtain ⟨g, l⟩ := p
    have hl : l = 0 := h (g, l) (List.mem_cons_self _ _)
    subst hl
    simp only [wilderRsiGo] at hy
    have hal : ((0:ℚ) * ((period:ℚ) - 1) + 0) / (period:ℚ) = 0 := by simp
    rw [hal] at hy
    rcases List.mem_cons.1 hy with rfl | hy2
    · rw [toRsi_zero]
    · exact ih _ (fun q hq => h q (List.mem_cons_of_mem _ hq)) y hy2

theorem emaRsiGo_all100 (alpha : ℚ) :
    ∀ (ps : List (ℚ × ℚ)) (ag : ℚ), (∀ p ∈ ps, p.2 = 0) →
      ∀ y ∈ emaRsiGo alpha ag 0 ps, y = some 100 := by
  intro ps
  induction ps with
  | nil =>
    intro ag _ y hy
    simp [emaRsiGo] at hy
  | cons p rest ih =>
    intro ag h y hy
    obtain ⟨g, l⟩ := p
    have hl : l = 0 := h (g, l) (List.mem_cons_self _ _)
    subst hl
    simp only [emaRsiGo] at hy
    have hal : (0:ℚ) * (1 - alpha) + 0 * alpha = 0 := by simp
    rw [hal] at hy
    rcases List.mem_cons.1 hy with rfl | hy2
    · rw [toRsi_zero]
    · exact ih _ (fun q hq => h q (List.mem_cons_of_mem _ hq)) y hy2

theorem ball_to_chain' (l : List ℚ)
    (h : ∀ i, i < l.length - 1 → l.getD i 0 ≤ l.getD (i + 1) 0) :
    List.Chain' (· ≤ ·) l := by
  induction l with
  | nil => exact List.chain'_nil
  | cons a rest ih =>
    cases rest with
    | nil => simp
    | cons b rest2 =>
      rw [List.chain'_cons]
      constructor
      · simpa using h 0 (by simp)
      · apply ih
        intro i hi
        have := h (i + 1) (by simp at hi ⊢; omega)
        simpa [List.getD_cons_succ] using this

theorem chain'_zip_le (l : List ℚ) (h : List.Chain' (· ≤ ·) l) :
    ∀ p ∈ l.tail.zip l, p.2 ≤ p.1 := by
  induction l with
  | nil => simp
  | cons a rest ih =>
    cases rest with
    | nil => simp
    | cons b rest2 =>
      rw [List.chain'_cons] at h
      intro p hp
      simp only [List.tail_cons, List.zip_cons_cons] at hp
      rcases List.mem_cons.1 hp with rfl | hp2
      · exact h.1
      · exact ih h.2 p hp2

/-- Monotone non-decreasing closes of length above 30 drive both the Wilder
RSI and the spec EMA-smoothed variant to exactly 100 at index 20. -/
theorem rsiMonotoneBoth100 (closes : List ℚ)
    (hmono : ∀ i, i < closes.length - 1 → closes.getD i 0 ≤ closes.getD (i + 1) 0)
    (hlen : 30 < closes.length) :
    (rsiWilder closes 14).getD 20 none = some 100 ∧
      (rsiEmaSmoothedSpec closes 14).getD 20 none = some 100 := by
  have hpairs := chain'_zip_le closes (ball_to_chain' closes hmono)
  have hdelnn : ∀ d ∈ (closes.tail.zip closes).map (fun p => p.1 - p.2), 0 ≤ d := by
    intro d hd
    obtain ⟨p, hp, rfl⟩ := List.mem_map.1 hd
    have := hpairs p hp
    linarith
  have hloss : ∀ x ∈ ((closes.tail.zip closes).map (fun p => p.1 - p.2)).map
      (fun d => if d < 0 then -d else 0), x = 0 := by
    intro x hx
    obtain ⟨d, hd, rfl⟩ := List.mem_map.1 hx
    rw [if_neg (not_lt.mpr (hdelnn d hd))]
  have hred : ∀ (v : Option ℚ) (tail : List (Option ℚ)),
      (List.replicate 14 (none : Option ℚ) ++ v :: tail).getD 20 none =
        tail.getD 5 none := fun v tail => rfl
  have hziplen : ((((closes.tail.zip closes).map (fun p => p.1 - p.2)).map
        (fun d => if 0 < d then d else 0)).drop 14).length = closes.length - 15 := by
    simp [List.length_tail]
    omega
  constructor
  · simp only [rsiWilder]
    rw [if_neg (by omega)]
    have hsum : ((((closes.tail.zip closes).map (fun p => p.1 - p.2)).map
        (fun d => if d < 0 then -d else 0)).take 14).sum / ((14 : ℕ) : ℚ) = 0 := by
      rw [List.sum_eq_zero (fun x hx => hloss x (List.mem_of_mem_take hx))]
      simp
    rw [hsum, hred]
    have hp2 : ∀ p ∈ ((((closes.tail.zip closes).map (fun p => p.1 - p.2)).map
          (fun d => if 0 < d then d else 0)).drop 14).zip
        ((((closes.tail.zip closes).map (fun p => p.1 - p.2)).map
          (fun d => if d < 0 then -d else 0)).drop 14), p.2 = 0 :=
      fun p hp => hloss p.2 (List.mem_of_mem_drop (List.of_mem_zip hp).2)
    have hall := wilderRsiGo_all100 14
      (((((closes.tail.zip closes).map (fun p => p.1 - p.2)).map
          (fun d => if 0 < d then d else 0)).drop 14).zip
        ((((closes.tail.zip closes).map (fun p => p.1 - p.2)).map
          (fun d => if d < 0 then -d else 0)).drop 14))
      (((((closes.tail.zip closes).map (fun p => p.1 - p.2)).map
          (fun d => if 0 < d then d else 0)).take 14).sum / ((14 : ℕ) : ℚ)) hp2
    refine hall _ (getD_mem_of_lt none ?_)
    rw [wilderRsiGo_length, List.length_zip, hziplen]
    have : ((((closes.tail.zip closes).map (fun p => p.1 - p.2)).map
        (fun d => if d < 0 then -d else 0)).drop 14).length = closes.length - 15 := by
      simp [List.length_tail]
      omega
    rw [this]
    omega
  · simp only [rsiEmaSmoothedSpec]
    rw [if_neg (by omega)]
    have hsum : ((((closes.tail.zip closes).map (fun p => p.1 - p.2)).map
        (fun d => if d < 0 then -d else 0)).take 14).sum / ((14 : ℕ) : ℚ) = 0 := by
      rw [List.sum_eq_zero (fun x hx => hloss x (List.mem_of_mem_take hx))]
      simp
    rw [hsum, hred]
    have hp2 : ∀ p ∈ ((((closes.tail.zip closes).map (fun p => p.1 - p.2)).map
          (fun d => if 0 < d then d else 0)).drop 14).zip
        ((((closes.tail.zip closes).map (fun p => p.1 - p.2)).map
          (fun d => if d < 0 then -d else 0)).drop 14), p.2 = 0 :=
      fun p hp => hloss p.2 (List.mem_of_mem_drop (List.of_mem_zip hp).2)
    have hall := emaRsiGo_all100 (2 / (((14 : ℕ) : ℚ) + 1))
      (((((closes.tail.zip closes).map (fun p => p.1 - p.2)).map
          (fun d => if 0 < d then d else 0)).drop 14).zip
        ((((closes.tail.zip closes).map (fun p => p.1 - p.2)).map
          (fun d => if d < 0 then -d else 0)).drop 14))
      (((((closes.tail.zip closes).map (fun p => p.1 - p.2)).map
          (fun d => if 0 < d then d else 0)).take 14).sum / ((14 : ℕ) : ℚ)) hp2
    refine hall _ (getD_mem_of_lt none ?_)
    rw [emaRsiGo_length, List.length_zip, hziplen]
    have : ((((closes.tail.zip closes).map (fun p => p.1 - p.2)).map
        (fun d => if d < 0 then -d else 0)).drop 14).length = closes.length - 15 := by
      simp [List.length_tail]
      omega
    rw [this]
    omega

/-- A concrete monotone increasing close series of length 31 used to refute
C9. -/
def upSeq : List ℚ :=
  [1, 2, 3, 4, 5, 6, 7, 8, 9, 10, 11, 12, 13, 14, 15, 16, 17, 18, 19, 20,
   21, 22, 23, 24, 25, 26, 27, 28, 29, 30, 31]

/-- C9 counterexample.  upSeq is monotonically increasing with length 31 > 30,
yet rsiWilder and the EMA-smoothed RSI agree exactly (both are 100) at index
20, so they do not differ by more than any positive epsilon. -/
theorem c9_counterexample :
    (∀ i, i < upSeq.length - 1 → upSeq.getD i 0 ≤ upSeq.getD (i + 1) 0)
    ∧ 30 < upSeq.length
    ∧ (rsiWilder upSeq 14).getD 20 none = some 100
    ∧ (rsiEmaSmoothedSpec upSeq 14).getD 20 none = some 100
    ∧ (rsiWilder upSeq 14).getD 20 none = (rsiEmaSmoothedSpec upSeq 14).getD 20 none := by
  have hmono : ∀ i, i < upSeq.length - 1 → upSeq.getD i 0 ≤ upSeq.getD (i + 1) 0 := by
    decide
  have hlen : 30 < upSeq.length := by decide
  obtain ⟨h1, h2⟩ := rsiMonotoneBoth100 upSeq hmono hlen
  exact ⟨hmono, hlen, h1, h2, by rw [h1, h2]⟩

/-- C9 amended claim theorem.  For every monotonically increasing close series
of length above 30, the Wilder RSI and the EMA-smoothed RSI at index 20 are
both exactly 100 — all losses vanish, so the two smoothing constants cannot
be distinguished there and the outputs coincide instead of differing. -/
theorem c9_monotone_rsi_agree (closes : List ℚ)
    (hmono : ∀ i, i < closes.length - 1 → closes.getD i 0 ≤ closes.getD (i + 1) 0)
    (hlen : 30 < closes.length) :
    (rsiWilder closes 14).getD 20 none = some 100 ∧
      (rsiEmaSmoothedSpec closes 14).getD 20 none = some 100 ∧
      (rsiWilder closes 14).getD 20 none = (rsiEmaSmoothedSpec closes 14).getD 20 none := by
  obtain ⟨h1, h2⟩ := rsiMonotoneBoth100 closes hmono hlen
  exact ⟨h1, h2, by rw [h1, h2]⟩

/-- Witness for the amended C9 at the concrete series upSeq. -/
theorem c9_monotone_rsi_agree_witness :
    (rsiWilder upSeq 14).getD 20 none = some 100 ∧
      (rsiEmaSmoothedSpec upSeq 14).getD 20 none = some 100 ∧
      (rsiWilder upSeq 14).getD 20 none = (rsiEmaSmoothedSpec upSeq 14).getD 20 none :=
  c9_monotone_rsi_agree upSeq (by decide) (by decide)

/-! Helpers for C4: behaviour of the forward/backward fill passes. -/

theorem fwdFillGo_some_noneFree (x : ℚ) :
    ∀ col, ∀ y ∈ fwdFillGo (some x) col, y ≠ none := by
  intro col
  induction col generalizing x with
  | nil => simp [fwdFillGo]
  | cons o rest ih =>
    intro y hy
    cases o with
    | none =>
      simp only [fwdFillGo] at hy
      rcases List.mem_cons.1 hy with rfl | hy2
      · exact Option.some_ne_none x
      · exact ih x y hy2
    | some v =>
      simp only [fwdFillGo] at hy
      rcases List.mem_cons.1 hy with rfl | hy2
      · exact Option.some_ne_none v
      · exact ih v y hy2

theorem fwdFillGo_some_mem (q : ℚ) :
    ∀ (col : List (Option ℚ)), some q ∈ col → ∀ last, ∃ v, some v ∈ fwdFillGo last col := by
  intro col
  induction col with
  | nil => intro h; simp at h
  | cons o rest ih =>
    intro h last
    cases o with
    | some v => exact ⟨v, by simp [fwdFillGo]⟩
    | none =>
      have h2 : some q ∈ rest := by simpa using h
      obtain ⟨v, hv⟩ := ih h2 last
      exact ⟨v, by simp only [fwdFillGo]; exact List.mem_cons_of_mem _ hv⟩

theorem findSome?_id_of_mem (q : ℚ) :
    ∀ (l : List (Option ℚ)), some q ∈ l → ∃ w, l.findSome? id = some w := by
  intro l
  induction l with
  | nil => intro h; simp at h
  | cons o rest ih =>
    intro h
    cases o with
    | some x => exact ⟨x, by simp [List.findSome?_cons]⟩
    | none =>
      have h2 : some q ∈ rest := by simpa using h
      obtain ⟨w, hw⟩ := ih h2
      exact ⟨w, by simp [List.findSome?_cons, hw]⟩

theorem padLeading_fwd_noneFree (w : ℚ) :
    ∀ (col : List (Option ℚ)), (∃ q, some q ∈ fwdFillGo none col) →
      ∀ y ∈ padLeading w (fwdFillGo none col), y ≠ none := by
  intro col
  induction col with
  | nil => intro h y hy; simp [fwdFillGo, padLeading] at hy
  | cons o rest ih =>
    intro h y hy
    cases o with
    | some v =>
      simp only [fwdFillGo, padLeading] at hy
      rcases List.mem_cons.1 hy with rfl | hy2
      · exact Option.some_ne_none v
      · exact fwdFillGo_some_noneFree v rest y hy2
    | none =>
      simp only [fwdFillGo, padLeading] at hy
      rcases List.mem_cons.1 hy with rfl | hy2
      · exact Option.some_ne_none w
      · refine ih ?_ y hy2
        obtain ⟨q, hq⟩ := h
        simp only [fwdFillGo] at hq
        exact ⟨q, by simpa using hq⟩

theorem backFill_fwd_noneFree (col : List (Option ℚ)) (h : ∃ q, some q ∈ col) :
    ∀ y ∈ backFill (fwdFillGo none col), y ≠ none := by
  obtain ⟨q, hq⟩ := h
  obtain ⟨v, hv⟩ := fwdFillGo_some_mem q col hq none
  obtain ⟨w, hw⟩ := findSome?_id_of_mem v _ hv
  unfold backFill
  rw [hw]
  exact padLeading_fwd_noneFree w col ⟨v, hv⟩

theorem fillColumn_false_noneFree (col : List (Option ℚ)) (h : ∃ q, some q ∈ col) :
    ∀ y ∈ fillColumn false col, y ≠ none := by
  intro y hy
  exact backFill_fwd_noneFree col h y hy

theorem fillColumn_true_noneFree (col : List (Option ℚ)) (hne : col ≠ []) :
    ∀ y ∈ fillColumn true col, y ≠ none := by
  have hps : ∃ v, some v ∈ padLeading 1 col := by
    cases col with
    | nil => cases hne rfl
    | cons o rest =>
      cases o with
      | none => exact ⟨1, by simp [padLeading]⟩
      | some x => exact ⟨x, by simp [padLeading]⟩
  intro y hy
  exact backFill_fwd_noneFree (padLeading 1 col) hps y hy

theorem fwdFillGo_length :
    ∀ (col : List (Option ℚ)) (last : Option ℚ), (fwdFillGo last col).length = col.length := by
  intro col
  induction col with
  | nil => intro last; rfl
  | cons o rest ih =>
    intro last
    cases o with
    | none => simp only [fwdFillGo, List.length_cons, ih]
    | some v => simp only [fwdFillGo, List.length_cons, ih]

theorem padLeading_length (v : ℚ) :
    ∀ (col : List (Option ℚ)), (padLeading v col).length = col.length := by
  intro col
  induction col with
  | nil => rfl
  | cons o rest ih =>
    cases o with
    | none => simp only [padLeading, List.length_cons, ih]
    | some x => simp only [padLeading, List.length_cons]

theorem backFill_length (col : List (Option ℚ)) : (backFill col).length = col.length := by
  unfold backFill
  cases h : col.findSome? id with
  | none => rfl
  | some v => exact padLeading_length v col

theorem fillColumn_length (b : Bool) (col : List (Option ℚ)) :
    (fillColumn b col).length = col.length := by
  cases b with
  | false =>
    show (backFill (fwdFillGo none col)).length = col.length
    rw [backFill_length, fwdFillGo_length]
  | true =>
    show (backFill (fwdFillGo none (padLeading 1 col))).length = col.length
    rw [backFill_length, fwdFillGo_length, padLeading_length]

theorem fillNulls_length (features : List (List (Option ℚ))) :
    (fillNulls features).length = features.length := by
  simp [fillNulls]

theorem fillNulls_row_length (features : List (List (Option ℚ)))
    (row : List (Option ℚ)) (hrow : row ∈ fillNulls features) : row.length = 7 := by
  simp only [fillNulls, List.mem_map] at hrow
  obtain ⟨i, -, rfl⟩ := hrow
  simp

theorem fillNulls_getD (features : List (List (Option ℚ))) (i f : ℕ)
    (hi : i < features.length) (hf : f < 7) :
    ((fillNulls features).getD i []).getD f none =
      (fillColumn (f == 6) (features.map (fun row => row.getD f none))).getD i none := by
  unfold fillNulls
  rw [getD_range_map _ _ _ _ hi, List.map_map,
    getD_range_map _ _ _ _ hf]
  rfl

theorem fillNulls_cell_ne_none (features : List (List (Option ℚ)))
    (hne : features ≠ [])
    (hcols : ∀ f, f < 6 → ∃ q, some q ∈ features.map (fun row => row.getD f none)) :
    ∀ row ∈ fillNulls features, ∀ cell ∈ row, cell ≠ none := by
  intro row hrow cell hcell
  simp only [fillNulls, List.mem_map] at hrow
  obtain ⟨i, hi, rfl⟩ := hrow
  rw [List.mem_range] at hi
  obtain ⟨c, hc, rfl⟩ := List.mem_map.1 hcell
  obtain ⟨f, hf, rfl⟩ := List.mem_map.1 hc
  rw [List.mem_range] at hf
  have hclen : (fillColumn (f == 6) (features.map (fun row => row.getD f none))).length =
      features.length := by
    rw [fillColumn_length, List.length_map]
  have hmem := getD_mem_of_lt (l := fillColumn (f == 6)
    (features.map (fun row => row.getD f none))) none (by rw [hclen]; exact hi)
  by_cases hf6 : f = 6
  · subst hf6
    exact fillColumn_true_noneFree _ (by simpa using hne) _ hmem
  · have hbeq : (f == 6) = false := by simp [hf6]
    rw [hbeq] at hmem ⊢
    exact fillColumn_false_noneFree _ (hcols f (by omega)) _ hmem

theorem computeFeatureMatrix_length (sq : ℚ → ℚ) (bars : List Bar) :
    (computeFeatureMatrix sq bars).length = bars.length := by
  simp [computeFeatureMatrix]

theorem computeFeatureMatrix_getD (sq : ℚ → ℚ) (bars : List Bar) (i : ℕ)
    (hi : i < bars.length) :
    (computeFeatureMatrix sq bars).getD i [] =
      [(rsiWilder (bars.map (fun d => d.close)) 14).getD i none,
       (computeMacd (bars.map (fun d => d.close))).1.getD i none,
       (computeMacd (bars.map (fun d => d.close))).2.2.getD i none,
       (match (bollingerBands sq (bars.map (fun d => d.close)) 20 2).1.getD i none,
              (bollingerBands sq (bars.map (fun d => d.close)) 20 2).2.getD i none with
        | some u, some lo =>
            some (bbPositionValue ((bars.map (fun d => d.close)).getD i 0) u lo)
        | _, _ => none),
       (match (sma (bars.map (fun d => d.volume)) 20).getD i none with
        | some s =>
            if 0 < s then some ((bars.map (fun d => d.volume)).getD i 0 / s) else none
        | none => none),
       (if 10 ≤ i ∧ 0 < (bars.map (fun d => d.close)).getD (i - 10) 0 then
          some (((bars.map (fun d => d.close)).getD i 0 -
              (bars.map (fun d => d.close)).getD (i - 10) 0) /
            (bars.map (fun d => d.close)).getD (i - 10) 0 * 100)
        else none),
       (match (sma (bars.map (fun d => d.close)) 50).getD i none with
        | some s =>
            if 0 < s then some ((bars.map (fun d => d.close)).getD i 0 / s) else none
        | none => none)] := by
  simp only [computeFeatureMatrix]
  rw [getD_range_map _ _ _ _ (by simpa using hi)]

theorem featureCol_exists (sq : ℚ → ℚ) (bars : List Bar) (f i₀ : ℕ)
    (hi₀ : i₀ < bars.length)
    (hval : ∃ q, ((computeFeatureMatrix sq bars).getD i₀ []).getD f none = some q) :
    ∃ q, some q ∈ (computeFeatureMatrix sq bars).map (fun row => row.getD f none) := by
  obtain ⟨q, hq⟩ := hval
  refine ⟨q, ?_⟩
  have hm : ((computeFeatureMatrix sq bars).getD i₀ []).getD f none ∈
      (computeFeatureMatrix sq bars).map (fun row => row.getD f none) :=
    map_getD_mem (computeFeatureMatrix sq bars) (fun row => row.getD f none) i₀ []
      (by rw [computeFeatureMatrix_length]; exact hi₀)
  rw [hq] at hm
  exact hm

theorem rsiWilder_getD_14 (closes : List ℚ) (h : 15 ≤ closes.length) :
    ∃ q, (rsiWilder closes 14).getD 14 none = some q := by
  simp only [rsiWilder]
  rw [if_neg (by omega)]
  have hred : ∀ (v : Option ℚ) (tail : List (Option ℚ)),
      (List.replicate 14 (none : Option ℚ) ++ v :: tail).getD 14 none = v :=
    fun v tail => rfl
  exact ⟨_, hred _ _⟩

theorem computeMacd_getD_zero (c0 : ℚ) (cs : List ℚ) :
    (∃ q, (computeMacd (c0 :: cs)).1.getD 0 none = some q) ∧
      ∃ q, (computeMacd (c0 :: cs)).2.2.getD 0 none = some q := by
  simp only [computeMacd, List.length_cons, List.range_succ_eq_map, List.map_cons,
    List.map_map, List.findIdx_cons, List.getD_cons_zero, ema]
  simp only [emaGo, List.getD_cons_zero, optSub, Option.isSome, cond_true,
    List.filterMap_cons, id_eq, Nat.sub_self, le_refl, if_pos]
  exact ⟨⟨_, rfl⟩, ⟨_, rfl⟩⟩

theorem computeMacd_getD_zero' (closes : List ℚ) (hne : closes ≠ []) :
    (∃ q, (computeMacd closes).1.getD 0 none = some q) ∧
      ∃ q, (computeMacd closes).2.2.getD 0 none = some q := by
  obtain ⟨c0, cs, rfl⟩ := List.exists_cons_of_ne_nil hne
  exact computeMacd_getD_zero c0 cs

theorem sma_getD_pos (data : List ℚ) (period i : ℕ) (hper : 0 < period)
    (h1 : period ≤ i + 1) (hi : i < data.length) (hpos : ∀ x ∈ data, 0 < x) :
    ∃ s, (sma data period).getD i none = some s ∧ 0 < s := by
  simp only [sma]
  rw [getD_range_map _ _ _ _ hi, if_pos h1]
  refine ⟨_, rfl, ?_⟩
  apply div_pos
  · apply List.sum_pos
    · intro x hx
      exact hpos x (List.mem_of_mem_drop (List.mem_of_mem_take hx))
    · apply List.length_pos.mp
      simp only [List.length_take, List.length_drop]
      omega
  · exact_mod_cast hper

theorem bollinger_getD (sq : ℚ → ℚ) (closes : List ℚ) (i : ℕ)
    (h1 : 20 ≤ i + 1) (hi : i < closes.length) :
    ∃ u lo, (bollingerBands sq closes 20 2).1.getD i none = some u ∧
      (bollingerBands sq closes 20 2).2.getD i none = some lo := by
  have hsma : (sma closes 20).getD i none =
      some (((closes.drop (i + 1 - 20)).take 20).sum / ((20 : ℕ) : ℚ)) := by
    simp only [sma]
    rw [getD_range_map _ _ _ _ hi, if_pos h1]
  simp only [bollingerBands]
  rw [getD_range_map _ _ _ _ hi, getD_range_map _ _ _ _ hi, if_pos h1, if_pos h1, hsma]
  exact ⟨_, _, rfl, rfl⟩

set_option maxHeartbeats 1600000 in
/-- C4 amended claim theorem.  For bar sequences of length at least 20 whose
closes and volumes are all positive, the filled FeatureMatrix contains no
nulls, and hence every window built by buildWindows (for any window size)
contains no null cells. -/
theorem c4_no_nulls_amended (sq : ℚ → ℚ) (bars : List Bar)
    (hlen : 20 ≤ bars.length) (hclose : ∀ b ∈ bars, 0 < b.close)
    (hvol : ∀ b ∈ bars, 0 < b.volume) :
    (∀ row ∈ fillNulls (computeFeatureMatrix sq bars), ∀ cell ∈ row, cell ≠ none)
    ∧ ∀ w, ∀ win ∈ buildWindows sq bars w, ∀ row ∈ win, ∀ cell ∈ row, cell ≠ none := by
  have hclosePos : ∀ x ∈ bars.map (fun d => d.close), 0 < x := by
    intro x hx
    obtain ⟨b, hb, rfl⟩ := List.mem_map.1 hx
    exact hclose b hb
  have hvolPos : ∀ x ∈ bars.map (fun d => d.volume), 0 < x := by
    intro x hx
    obtain ⟨b, hb, rfl⟩ := List.mem_map.1 hx
    exact hvol b hb
  have hcl : (bars.map (fun d => d.close)).length = bars.length := List.length_map _ _
  have hvl : (bars.map (fun d => d.volume)).length = bars.length := List.length_map _ _
  obtain ⟨b0, rest, hbars⟩ : ∃ b0 rest, bars = b0 :: rest := by
    cases bars with
    | nil => simp at hlen
    | cons b0 rest => exact ⟨b0, rest, rfl⟩
  have hmain : ∀ row ∈ fillNulls (computeFeatureMatrix sq bars),
      ∀ cell ∈ row, cell ≠ none := by
    apply fillNulls_cell_ne_none
    · intro hemp
      have := computeFeatureMatrix_length sq bars
      rw [hemp] at this
      simp at this
      omega
    · intro f hf
      interval_cases f
      · -- RSI14 at index 14
        apply featureCol_exists sq bars 0 14 (by omega)
        rw [computeFeatureMatrix_getD sq bars 14 (by omega)]
        simp only [List.getD_cons_zero]
        exact rsiWilder_getD_14 _ (by rw [hcl]; omega)
      · -- MACD at index 0
        apply featureCol_exists sq bars 1 0 (by omega)
        rw [computeFeatureMatrix_getD sq bars 0 (by omega)]
        simp only [List.getD_cons_succ, List.getD_cons_zero]
        exact (computeMacd_getD_zero' (bars.map (fun d => d.close))
          (by simp [hbars])).1
      · -- MACD_Hist at index 0
        apply featureCol_exists sq bars 2 0 (by omega)
        rw [computeFeatureMatrix_getD sq bars 0 (by omega)]
        simp only [List.getD_cons_succ, List.getD_cons_zero]
        exact (computeMacd_getD_zero' (bars.map (fun d => d.close))
          (by simp [hbars])).2
      · -- BB_Position at index 19
        apply featureCol_exists sq bars 3 19 (by omega)
        rw [computeFeatureMatrix_getD sq bars 19 (by omega)]
        simp only [List.getD_cons_succ, List.getD_cons_zero]
        obtain ⟨u, lo, hu, hlo⟩ := bollinger_getD sq (bars.map (fun d => d.close)) 19
          (by omega) (by rw [hcl]; omega)
        rw [hu, hlo]
        exact ⟨_, rfl⟩
      · -- Vol_Ratio at index 19
        apply featureCol_exists sq bars 4 19 (by omega)
        rw [computeFeatureMatrix_getD sq bars 19 (by omega)]
        simp only [List.getD_cons_succ, List.getD_cons_zero]
        obtain ⟨s, hs, hspos⟩ := sma_getD_pos (bars.map (fun d => d.volume)) 20 19
          (by omega) (by omega) (by rw [hvl]; omega) hvolPos
        rw [hs]
        exact ⟨_, by dsimp only; rw [if_pos hspos]⟩
      · -- Momentum at index 10
        apply featureCol_exists sq bars 5 10 (by omega)
        rw [computeFeatureMatrix_getD sq bars 10 (by omega)]
        simp only [List.getD_cons_succ, List.getD_cons_zero]
        have hm : 0 < (bars.map (fun d => d.close)).getD (10 - 10) 0 :=
          hclosePos _ (getD_mem_of_lt 0 (by rw [hcl]; omega))
        rw [if_pos ⟨le_refl 10, hm⟩]
        exact ⟨_, rfl⟩
  refine ⟨hmain, ?_⟩
  intro w win hwin row hrow cell hcell
  simp only [buildWindows, List.mem_map] at hwin
  obtain ⟨k, -, rfl⟩ := hwin
  exact hmain row (List.mem_of_mem_drop (List.mem_of_mem_take hrow)) cell hcell

/-- Concrete positive 20-bar input for the C4 witness. -/
def posBars : List Bar := List.replicate 20 ⟨1, 1⟩

/-- Witness for the amended C4 at a concrete positive 20-bar input. -/
theorem c4_no_nulls_amended_witness :
    (∀ row ∈ fillNulls (computeFeatureMatrix (fun _ => 0) posBars),
      ∀ cell ∈ row, cell ≠ none)
    ∧ ∀ w, ∀ win ∈ buildWindows (fun _ => 0) posBars w,
        ∀ row ∈ win, ∀ cell ∈ row, cell ≠ none :=
  c4_no_nulls_amended (fun _ => 0) posBars (by decide) (by decide) (by decide)

/-! Counterexample machinery for C4: a column that never receives a value
survives both fill passes untouched. -/

theorem fwdFillGo_allNone :
    ∀ (col : List (Option ℚ)), (∀ y ∈ col, y = none) → fwdFillGo none col = col := by
  intro col
  induction col with
  | nil => intro _; rfl
  | cons o rest ih =>
    intro h
    have ho : o = none := h o (List.mem_cons_self _ _)
    subst ho
    simp only [fwdFillGo]
    rw [ih (fun y hy => h y (List.mem_cons_of_mem _ hy))]

theorem findSome?_id_allNone :
    ∀ (col : List (Option ℚ)), (∀ y ∈ col, y = none) → col.findSome? id = none := by
  intro col
  induction col with
  | nil => intro _; rfl
  | cons o rest ih =>
    intro h
    have ho : o = none := h o (List.mem_cons_self _ _)
    subst ho
    simp only [List.findSome?_cons, id_eq]
    exact ih (fun y hy => h y (List.mem_cons_of_mem _ hy))

theorem fillColumn_false_allNone (col : List (Option ℚ))
    (h : ∀ y ∈ col, y = none) : fillColumn false col = col := by
  show backFill (fwdFillGo none col) = col
  rw [fwdFillGo_allNone col h]
  unfold backFill
  rw [findSome?_id_allNone col h]

theorem replicate_none_getD (n i : ℕ) :
    (List.replicate n (none : Option ℚ)).getD i none = none := by
  rw [List.getD_eq_getElem?_getD, List.getElem?_replicate]
  split <;> rfl

theorem sma_replicate_zero_mem (n p : ℕ) :
    ∀ v ∈ sma (List.replicate n (0 : ℚ)) p, v = none ∨ v = some 0 := by
  intro v hv
  simp only [sma, List.length_replicate] at hv
  obtain ⟨i, -, rfl⟩ := List.mem_map.1 hv
  by_cases h : p ≤ i + 1
  · right
    rw [if_pos h]
    simp [List.drop_replicate, List.take_replicate, List.sum_replicate]
  · left
    rw [if_neg h]

/-- Zero-volume 20-bar input: every bar is close 1, volume 0. -/
def zeroVolBars : List Bar := List.replicate 20 ⟨1, 0⟩

/-- Positive 5-bar input, shorter than any RSI warm-up. -/
def fiveBars : List Bar := List.replicate 5 ⟨1, 1⟩

theorem zeroVol_col4_allNone :
    ∀ y ∈ (computeFeatureMatrix (fun _ => 0) zeroVolBars).map
      (fun row => row.getD 4 none), y = none := by
  have hvmap : zeroVolBars.map (fun d => d.volume) = List.replicate 20 0 := by
    simp [zeroVolBars, List.map_replicate]
  have hlen : (computeFeatureMatrix (fun _ => 0) zeroVolBars).length = 20 := by
    rw [computeFeatureMatrix_length]
    simp [zeroVolBars]
  intro y hy
  obtain ⟨row, hrow, rfl⟩ := List.mem_map.1 hy
  obtain ⟨i, hilen, hrowEq⟩ := List.getElem_of_mem hrow
  have hrowD : (computeFeatureMatrix (fun _ => 0) zeroVolBars).getD i [] = row := by
    rw [List.getD_eq_getElem?_getD, List.getElem?_eq_getElem hilen]
    exact hrowEq
  have hi20 : i < zeroVolBars.length := by
    have := hilen
    rw [hlen] at this
    simpa [zeroVolBars] using this
  rw [← hrowD, computeFeatureMatrix_getD (fun _ => 0) zeroVolBars i hi20]
  simp only [List.getD_cons_succ, List.getD_cons_zero]
  rw [hvmap]
  cases hs : (sma (List.replicate 20 (0 : ℚ)) 20).getD i none with
  | none => rfl
  | some s =>
    have hsl : (sma (List.replicate 20 (0 : ℚ)) 20).length = 20 := by
      simp [sma]
    have hmem : (sma (List.replicate 20 (0 : ℚ)) 20).getD i none ∈
        sma (List.replicate 20 (0 : ℚ)) 20 := by
      apply getD_mem_of_lt
      rw [hsl]
      rw [hlen] at hilen
      exact hilen
    rw [hs] at hmem
    rcases sma_replicate_zero_mem 20 20 _ hmem with h0 | h0
    · cases h0
    · have : s = 0 := by injection h0
      subst this
      dsimp only
      rw [if_neg (lt_irrefl 0)]

theorem five_col0_allNone :
    ∀ y ∈ (computeFeatureMatrix (fun _ => 0) fiveBars).map
      (fun row => row.getD 0 none), y = none := by
  have hcmap : fiveBars.map (fun d => d.close) = List.replicate 5 1 := by
    simp [fiveBars, List.map_replicate]
  have hrsi : rsiWilder (List.replicate 5 (1 : ℚ)) 14 = List.replicate 5 none := by
    simp only [rsiWilder, List.length_replicate]
    rw [if_pos (by omega)]
  intro y hy
  obtain ⟨row, hrow, rfl⟩ := List.mem_map.1 hy
  obtain ⟨i, hilen, hrowEq⟩ := List.getElem_of_mem hrow
  have hrowD : (computeFeatureMatrix (fun _ => 0) fiveBars).getD i [] = row := by
    rw [List.getD_eq_getElem?_getD, List.getElem?_eq_getElem hilen]
    exact hrowEq
  have hi5 : i < fiveBars.length := by
    have := hilen
    rw [computeFeatureMatrix_length] at this
    exact this
  rw [← hrowD, computeFeatureMatrix_getD (fun _ => 0) fiveBars i hi5]
  simp only [List.getD_cons_zero]
  rw [hcmap, hrsi]
  exact replicate_none_getD 5 i

/-- C4 counterexample.  The claim fails as stated: with 20 zero-volume bars
the Vol_Ratio column never receives a value, so the filled FeatureMatrix
still contains nulls and the single window built from it contains null
cells; and with 5 bars the RSI14 column stays entirely null after filling. -/
theorem c4_counterexample :
    20 ≤ zeroVolBars.length
    ∧ ((fillNulls (computeFeatureMatrix (fun _ => 0) zeroVolBars)).getD 0 []).getD 4 none
        = none
    ∧ (∃ win ∈ buildWindows (fun _ => 0) zeroVolBars 20,
        ∃ row ∈ win, ∃ cell ∈ row, cell = none)
    ∧ ((fillNulls (computeFeatureMatrix (fun _ => 0) fiveBars)).getD 0 []).getD 0 none
        = none := by
  have hflen20 : (computeFeatureMatrix (fun _ => 0) zeroVolBars).length = 20 := by
    rw [computeFeatureMatrix_length]
    simp [zeroVolBars]
  have hcell4 : ((fillNulls (computeFeatureMatrix (fun _ => 0) zeroVolBars)).getD 0 []).getD
      4 none = none := by
    rw [fillNulls_getD _ 0 4 (by omega) (by omega)]
    rw [show ((4 : ℕ) == 6) = false from rfl]
    rw [fillColumn_false_allNone _ zeroVol_col4_allNone]
    exact zeroVol_col4_allNone _
      (getD_mem_of_lt none (by rw [List.length_map, hflen20]; omega))
  have hfl : (fillNulls (computeFeatureMatrix (fun _ => 0) zeroVolBars)).length = 20 := by
    rw [fillNulls_length, hflen20]
  refine ⟨by simp [zeroVolBars], hcell4, ?_, ?_⟩
  · refine ⟨fillNulls (computeFeatureMatrix (fun _ => 0) zeroVolBars), ?_, ?_⟩
    · simp only [buildWindows]
      refine List.mem_map.2 ⟨0, ?_, ?_⟩
      · have h1 : (fillNulls (computeFeatureMatrix (fun _ => 0) zeroVolBars)).length + 1 -
            (if (20 : ℕ) = 0 then 20 else 20) = 1 := by
          rw [hfl]
          norm_num
        rw [h1]
        exact List.mem_range.2 (by omega)
      · show ((fillNulls (computeFeatureMatrix (fun _ => 0) zeroVolBars)).drop 0).take
            (if (20 : ℕ) = 0 then 20 else 20) =
          fillNulls (computeFeatureMatrix (fun _ => 0) zeroVolBars)
        rw [List.drop_zero]
        exact List.take_of_length_le (by rw [hfl]; norm_num)
    · have hrowmem : (fillNulls (computeFeatureMatrix (fun _ => 0) zeroVolBars)).getD 0 [] ∈
          fillNulls (computeFeatureMatrix (fun _ => 0) zeroVolBars) :=
        getD_mem_of_lt [] (by rw [hfl]; omega)
      refine ⟨(fillNulls (computeFeatureMatrix (fun _ => 0) zeroVolBars)).getD 0 [],
        hrowmem, ?_⟩
      refine ⟨((fillNulls (computeFeatureMatrix (fun _ => 0) zeroVolBars)).getD 0 []).getD
        4 none, ?_, hcell4⟩
      apply getD_mem_of_lt
      rw [fillNulls_row_length _ _ hrowmem]
      omega
  · rw [fillNulls_getD _ 0 0 (by rw [computeFeatureMatrix_length]; simp [fiveBars]) (by omega)]
    rw [show ((0 : ℕ) == 6) = false from rfl]
    rw [fillColumn_false_allNone _ five_col0_allNone]
    refine five_col0_allNone _ (getD_mem_of_lt none ?_)
    rw [List.length_map, computeFeatureMatrix_length]
    simp [fiveBars]

end VAE
